import Mathlib

/-!
Verification of the scorecard point-scaling and rounding engine
(`optbinning/scorecard/scorecard.py`).

The numeric core is embedded shallowly over exact rationals `ℚ`:

* `pdoOddsPoint` and `minMaxPoint` embed the two branches of the source
  function `_compute_scorecard_points` (scorecard.py, lines 103-138);
  the floating-point constants `np.log(2)` and `np.log(odds)` are passed
  in as explicit rational parameters `ln2` and `lnOdds`.
* `computeInterceptBased` embeds `_compute_intercept_based`
  (lines 141-156) over a scorecard table represented as a list of
  (variable, points) rows.
* `checkScorecardScaling` embeds `_check_scorecard_scaling`
  (lines 65-100), returning `true` exactly when the source raises.
* `roundingStage` and `scorecardFit` embed the scaling / rebalancing /
  rounding section of `Scorecard._fit` (lines 499-531); the external
  MIP rounder is modelled by its observable output (a status string and
  a points sequence), and `Option` models a raised Python exception.
-/

namespace Scorecard

/-- The supported scaling method tags ("pdo_odds" and "min_max");
`Option SMethod` models the `scaling_method` parameter, `none` being
Python `None`. -/
inductive SMethod where
  | pdo_odds
  | min_max
deriving DecidableEq, Repr

/-- Source line 108: `sense = -1 if reverse_scorecard else 1`. -/
def senseOf (reverse_scorecard : Bool) : ℚ :=
  if reverse_scorecard then -1 else 1

/-- Embeds `np.min` over a list of bin points (the source never applies it to an
empty bin table; `0` is a junk value for `[]`). -/
def listMin : List ℚ → ℚ
  | [] => 0
  | x :: xs => xs.foldl min x

/-- Embeds `np.max` over a list of bin points (junk `0` for `[]`). -/
def listMax : List ℚ → ℚ
  | [] => 0
  | x :: xs => xs.foldl max x

/-! ### `_compute_scorecard_points`, "pdo_odds" branch (lines 110-118)

`ln2` stands for `np.log(2)` and `lnOdds` for `np.log(odds)`; with those
read as exact reals the definition is the source arithmetic verbatim:
`factor = pdo / np.log(2)`, `offset = scorecard_points - factor *
np.log(odds)`, `new_points = -(sense * points + intercept / n) * factor
+ offset / n`. -/
def pdoOddsPoint (pdo scorecard_points ln2 lnOdds intercept : ℚ) (n : ℕ)
    (reverse_scorecard : Bool) (p : ℚ) : ℚ :=
  let sense := senseOf reverse_scorecard
  let factor := pdo / ln2
  let offset := scorecard_points - factor * lnOdds
  let new_points := -(sense * p + intercept / n) * factor + offset / n
  new_points

/-! ### `_compute_scorecard_points`, "min_max" branch (lines 119-136)

A bin table is its column of raw points, `List ℚ`; `tables` is the list
`binning_tables`. -/

/-- Source line 123: `min_p = np.sum([np.min(bt.Points) for bt in binning_tables])`. -/
def mmMinP (tables : List (List ℚ)) : ℚ := (tables.map listMin).sum

/-- Source line 124: `max_p = np.sum([np.max(bt.Points) for bt in binning_tables])`. -/
def mmMaxP (tables : List (List ℚ)) : ℚ := (tables.map listMax).sum

/-- Source line 126: `smin = intercept + min_p`. -/
def mmSmin (tables : List (List ℚ)) (intercept : ℚ) : ℚ :=
  intercept + mmMinP tables

/-- Source line 127: `smax = intercept + max_p`. -/
def mmSmax (tables : List (List ℚ)) (intercept : ℚ) : ℚ :=
  intercept + mmMaxP tables

/-- Source line 129: `slope = sense * (a - b) / (smax - smin)`.  The source has
no guard on the denominator. -/
def mmSlope (a b : ℚ) (tables : List (List ℚ)) (intercept : ℚ)
    (reverse_scorecard : Bool) : ℚ :=
  senseOf reverse_scorecard * (a - b)
    / (mmSmax tables intercept - mmSmin tables intercept)

/-- Source lines 130-133: `shift = a - slope * smin` when reversed,
`b - slope * smin` otherwise. -/
def mmShift (a b : ℚ) (tables : List (List ℚ)) (intercept : ℚ)
    (reverse_scorecard : Bool) : ℚ :=
  if reverse_scorecard then
    a - mmSlope a b tables intercept reverse_scorecard
        * mmSmin tables intercept
  else
    b - mmSlope a b tables intercept reverse_scorecard
        * mmSmin tables intercept

/-- Source line 135: `base_points = shift + slope * intercept`. -/
def mmBase (a b : ℚ) (tables : List (List ℚ)) (intercept : ℚ)
    (reverse_scorecard : Bool) : ℚ :=
  mmShift a b tables intercept reverse_scorecard
    + mmSlope a b tables intercept reverse_scorecard * intercept

/-- Source line 136: `new_points = base_points / n + slope * points`, for one
raw point `p`; `n = len(binning_tables)`. -/
def minMaxPoint (a b : ℚ) (tables : List (List ℚ)) (intercept : ℚ)
    (reverse_scorecard : Bool) (p : ℚ) : ℚ :=
  mmBase a b tables intercept reverse_scorecard / (tables.length : ℚ)
    + mmSlope a b tables intercept reverse_scorecard * p

/-- Theoretical minimum achievable total score after min/max scaling:
the sum over variables of the minimum scaled point of that variable's
bin table (the intercept is folded into the points; `intercept_` stays
`0` when `intercept_based` is off). -/
def mmMinTotal (a b : ℚ) (tables : List (List ℚ)) (intercept : ℚ)
    (reverse_scorecard : Bool) : ℚ :=
  (tables.map (fun t =>
    listMin (t.map (minMaxPoint a b tables intercept reverse_scorecard)))).sum

/-- Theoretical maximum achievable total score after min/max scaling. -/
def mmMaxTotal (a b : ℚ) (tables : List (List ℚ)) (intercept : ℚ)
    (reverse_scorecard : Bool) : ℚ :=
  (tables.map (fun t =>
    listMax (t.map (minMaxPoint a b tables intercept reverse_scorecard)))).sum

/-! ### `_compute_intercept_based` (lines 141-156)

`df_scorecard` is modelled by its `Variable` and `Points` columns: a
list of (variable, points) rows. -/

/-- Embeds `df_scorecard.Variable.unique()`: the distinct values of a column in
order of first appearance. -/
def uniqueList (l : List String) : List String :=
  l.foldl (fun acc x => if x ∈ acc then acc else acc ++ [x]) []

/-- The distinct variables of a scorecard table in appearance order
(`selected_variables = df_scorecard.Variable.unique()`, line 147). -/
def scorecardVars (table : List (String × ℚ)) : List String :=
  uniqueList (table.map (fun r => r.1))

/-- Source line 151: `df_scorecard[mask].Points.values` for
`mask = (Variable == v)`. -/
def varPoints (table : List (String × ℚ)) (v : String) : List ℚ :=
  (table.filter (fun r => r.1 == v)).map (fun r => r.2)

/-- Source line 152: `min_point = np.min(points)` for one variable's rows. -/
def minOfVar (table : List (String × ℚ)) (v : String) : ℚ :=
  listMin (varPoints table v)

/-- Embeds `_compute_intercept_based`: per variable, subtract that variable's
minimum point from each of its rows (`scaled_points[mask] = points -
min_point`, line 153) and accumulate the removed minima into the
returned intercept (`intercept += min_point`, line 154). -/
def computeInterceptBased (table : List (String × ℚ)) :
    List (String × ℚ) × ℚ :=
  (table.map (fun r => (r.1, r.2 - minOfVar table r.1)),
   ((scorecardVars table).map (fun v => minOfVar table v)).sum)

/-- The claim C5 formula, written exactly as the spec states it:
`new_p = -(sense * p + intercept / n) * factor + offset / n` with
`factor = pdo / ln 2` and `offset = scorecard_points - factor * ln odds`
(`ln2`, `lnOdds` standing for the two logarithms). -/
def specPdoOddsFormula (pdo scorecard_points ln2 lnOdds intercept : ℚ)
    (n : ℕ) (reverse_scorecard : Bool) (p : ℚ) : ℚ :=
  -((if reverse_scorecard then (-1 : ℚ) else 1) * p + intercept / n)
      * (pdo / ln2)
    + (scorecard_points - pdo / ln2 * lnOdds) / n

/-! ### Rounding stage of `Scorecard._fit` (lines 513-531) -/

/-- Embeds `np.rint`: round to the nearest integer, ties to the even integer. -/
def rint (q : ℚ) : ℚ :=
  let f : ℤ := ⌊q⌋
  let r : ℚ := q - f
  if r < 1 / 2 then f
  else if 1 / 2 < r then f + 1
  else if f % 2 = 0 then f else f + 1

/-- Lines 513-531 of `Scorecard._fit` (the body of `if self.rounding:`).
The external `RoundingMIP` collaborator is modelled by its observable
output: the `status` string and the points sequence returned by
`solve()`.  `none` models the `NameError` raised at
`df_scorecard["Points"] = round_points` when neither branch assigned
`round_points` (scaling method `None`). -/
def roundingStage (method : Option SMethod) (status : String)
    (solverPoints : List ℚ) (rows : List (String × ℚ)) :
    Option (List (String × ℚ)) :=
  match method with
  | some SMethod.pdo_odds => some (rows.map (fun r => (r.1, rint r.2)))
  | some SMethod.min_max =>
      if status = "OPTIMAL" ∨ status = "FEASIBLE" then
        some ((rows.zip solverPoints).map (fun x => (x.1.1, x.2)))
      else
        some (rows.map (fun r => (r.1, rint r.2)))
  | none => none

/-! ### The `_fit` pipeline (lines 499-531) -/

/-- A scaling configuration after validation: the method tag together
with its parameters (`off` is Python `scaling_method=None`; for
`pdoOdds`, `ln2`/`lnOdds` stand for `np.log(2)` and `np.log(odds)`). -/
inductive ScalingConfig where
  | off
  | pdoOdds (pdo odds scorecard_points ln2 lnOdds : ℚ)
  | minMax (a b : ℚ)
deriving DecidableEq

/-- The `scaling_method` string carried by a configuration. -/
def ScalingConfig.method : ScalingConfig → Option SMethod
  | ScalingConfig.off => none
  | ScalingConfig.pdoOdds _ _ _ _ _ => some SMethod.pdo_odds
  | ScalingConfig.minMax _ _ => some SMethod.min_max

/-- Embeds `_compute_scorecard_points` dispatched on the configuration
(`tables` holds the raw per-variable bin points).  The `off` case is
unreachable: the caller only scales under
`if self.scaling_method is not None:`. -/
def scalePoint (cfg : ScalingConfig) (tables : List (List ℚ))
    (intercept : ℚ) (reverse_scorecard : Bool) (p : ℚ) : ℚ :=
  match cfg with
  | ScalingConfig.off => p
  | ScalingConfig.pdoOdds pdo _ scorecard_points ln2 lnOdds =>
      pdoOddsPoint pdo scorecard_points ln2 lnOdds intercept tables.length
        reverse_scorecard p
  | ScalingConfig.minMax a b =>
      minMaxPoint a b tables intercept reverse_scorecard p

/-- The scorecard-table section of `Scorecard._fit` (lines 499-531):
scaling when a method is configured, intercept rebalancing when
`intercept_based` (nested inside the scaling guard, as in the source),
then rounding when `rounding`.  `tables` pairs each selected variable
with its bin table's raw points; their flattened rows are
`df_scorecard`.  Returns the final (rows, `intercept_`), or `none` when
the source raises. -/
def scorecardFit (cfg : ScalingConfig)
    (intercept_based reverse_scorecard rounding : Bool) (status : String)
    (solverPoints : List ℚ) (tables : List (String × List ℚ))
    (intercept : ℚ) : Option (List (String × ℚ) × ℚ) :=
  let df0 : List (String × ℚ) :=
    tables.flatMap (fun t => t.2.map (fun p => (t.1, p)))
  let rawTables : List (List ℚ) := tables.map (fun t => t.2)
  let step1 : List (String × ℚ) × ℚ :=
    match cfg with
    | ScalingConfig.off => (df0, 0)
    | _ =>
        let scaled := df0.map (fun r =>
          (r.1, scalePoint cfg rawTables intercept reverse_scorecard r.2))
        if intercept_based then computeInterceptBased scaled
        else (scaled, 0)
  if rounding then
    match roundingStage cfg.method status solverPoints step1.1 with
    | some rounded => some (rounded, step1.2)
    | none => none
  else
    some (step1.1, step1.2)

/-! ### `_check_scorecard_scaling` (lines 65-100) -/

/-- A value of `scaling_method_params`: a number, or any other Python
object (`isinstance(value, numbers.Number)` distinguishes the two). -/
inductive PValue where
  | num (q : ℚ)
  | other
deriving DecidableEq

/-- The key list of the params dict (modelled as an association list). -/
def pkeys (params : List (String × PValue)) : List String :=
  params.map (fun r => r.1)

/-- Embeds the lookup `scaling_method_params[k]`. -/
def plookup (params : List (String × PValue)) (k : String) : PValue :=
  match params.find? (fun r => r.1 == k) with
  | some r => r.2
  | none => PValue.other

/-- Embeds the key-set comparison `set(ks) == set(ds)`. -/
def keySetEq (ks ds : List String) : Bool :=
  ks.all (fun k => ds.contains k) && ds.all (fun d => ks.contains d)

/-- Embeds `isinstance(value, numbers.Number)`. -/
def isNum : PValue → Bool
  | PValue.num _ => true
  | PValue.other => false

/-- The numeric value of a parameter (junk `0` for a non-number). -/
def numVal : PValue → ℚ
  | PValue.num q => q
  | PValue.other => 0

/-- Embeds `isinstance(value, numbers.Number) and value > 0`. -/
def isPosNum : PValue → Bool
  | PValue.num q => decide (0 < q)
  | PValue.other => false

/-- Embeds `_check_scorecard_scaling`: `true` exactly when the source raises
`ValueError`, following the source's order of checks — for "pdo_odds":
binary target, exact key set, strictly positive numeric values; for
"min_max": exact key set, numeric values, `min > max`. -/
def checkScorecardScaling (method : Option SMethod)
    (params : List (String × PValue)) (target_type : String) : Bool :=
  match method with
  | none => false
  | some SMethod.pdo_odds =>
      if target_type != "binary" then true
      else if !keySetEq (pkeys params) ["pdo", "odds", "scorecard_points"]
      then true
      else if !(["pdo", "odds", "scorecard_points"].all
          (fun k => isPosNum (plookup params k))) then true
      else false
  | some SMethod.min_max =>
      if !keySetEq (pkeys params) ["min", "max"] then true
      else if !(["min", "max"].all (fun k => isNum (plookup params k)))
      then true
      else if decide
          (numVal (plookup params "max") < numVal (plookup params "min"))
      then true
      else false

/-- Claim C8's error condition exactly as stated: wrong key set; some
`pdo`/`odds`/`scorecard_points` not a strictly positive number;
`min > max`; or "pdo_odds" with a non-binary target. -/
def claimScalingError (method : Option SMethod)
    (params : List (String × PValue)) (target_type : String) : Bool :=
  match method with
  | none => false
  | some SMethod.pdo_odds =>
      !keySetEq (pkeys params) ["pdo", "odds", "scorecard_points"]
        || !(["pdo", "odds", "scorecard_points"].all
            (fun k => isPosNum (plookup params k)))
        || (target_type != "binary")
  | some SMethod.min_max =>
      !keySetEq (pkeys params) ["min", "max"]
        || decide
            (numVal (plookup params "max") < numVal (plookup params "min"))

/-- The amended C8 error condition: claim C8's list plus the condition
the source also checks for "min_max" — `min` or `max` not a number. -/
def claimScalingErrorAmended (method : Option SMethod)
    (params : List (String × PValue)) (target_type : String) : Bool :=
  match method with
  | none => false
  | some SMethod.pdo_odds =>
      !keySetEq (pkeys params) ["pdo", "odds", "scorecard_points"]
        || !(["pdo", "odds", "scorecard_points"].all
            (fun k => isPosNum (plookup params k)))
        || (target_type != "binary")
  | some SMethod.min_max =>
      !keySetEq (pkeys params) ["min", "max"]
        || !(["min", "max"].all (fun k => isNum (plookup params k)))
        || decide
            (numVal (plookup params "max") < numVal (plookup params "min"))

end Scorecard

namespace Scorecard

lemma mem_foldl_unique (l acc : List String) (v : String) :
    v ∈ l.foldl (fun acc x => if x ∈ acc then acc else acc ++ [x]) acc
      ↔ v ∈ acc ∨ v ∈ l := by
  induction l generalizing acc with
  | nil => simp
  | cons a l ih =>
      simp only [List.foldl_cons, ih, List.mem_cons]
      by_cases h : a ∈ acc
      · simp only [if_pos h]
        constructor
        · rintro (hv | hv)
          · exact Or.inl hv
          · exact Or.inr (Or.inr hv)
        · rintro (hv | rfl | hv)
          · exact Or.inl hv
          · exact Or.inl h
          · exact Or.inr hv
      · simp only [if_neg h, List.mem_append, List.mem_singleton]
        tauto

lemma mem_scorecardVars (table : List (String × ℚ)) (v : String) :
    v ∈ scorecardVars table ↔ v ∈ table.map (fun r => r.1) := by
  unfold scorecardVars uniqueList
  rw [mem_foldl_unique]
  simp

lemma varPoints_ne_nil (table : List (String × ℚ)) (v : String)
    (hv : v ∈ table.map (fun r => r.1)) : varPoints table v ≠ [] := by
  induction table with
  | nil => simp at hv
  | cons r rest ih =>
      unfold varPoints
      rw [List.filter_cons]
      by_cases h : r.1 = v
      · simp [h]
      · have hb : (r.1 == v) = false := beq_false_of_ne h
        rw [hb]
        simp only [List.map_cons, List.mem_cons] at hv
        rcases hv with hv | hv
        · exact absurd hv.symm h
        · exact ih hv

/-- Filtering a points-only rewrite of the table commutes with
`varPoints`. -/
lemma varPoints_pointmap (f : String → ℚ → ℚ) (table : List (String × ℚ))
    (v : String) :
    varPoints (table.map (fun r => (r.1, f r.1 r.2))) v
      = (varPoints table v).map (fun p => f v p) := by
  induction table with
  | nil => rfl
  | cons r rest ih =>
      unfold varPoints at ih ⊢
      simp only [List.map_cons, List.filter_cons]
      by_cases h : r.1 = v
      · subst h
        simp only [beq_self_eq_true, if_true, List.map_cons, ih]
      · have hb : (r.1 == v) = false := beq_false_of_ne h
        simp only [hb, Bool.false_eq_true, if_false, ih]

lemma foldl_min_sub (m : ℚ) (l : List ℚ) :
    ∀ x : ℚ, (l.map (fun p => p - m)).foldl min (x - m)
      = l.foldl min x - m := by
  induction l with
  | nil => intro x; simp
  | cons a l ih =>
      intro x
      simp only [List.map_cons, List.foldl_cons, min_sub_sub_right, ih]

lemma listMin_map_sub (m : ℚ) (l : List ℚ) (hl : l ≠ []) :
    listMin (l.map (fun p => p - m)) = listMin l - m := by
  cases l with
  | nil => exact absurd rfl hl
  | cons a l =>
      simp only [List.map_cons, listMin]
      exact foldl_min_sub m l a

/-- After `_compute_intercept_based`, every distinct variable's minimum
point is zero. -/
lemma minOfVar_rebalanced (table : List (String × ℚ)) (v : String)
    (hv : v ∈ scorecardVars table) :
    minOfVar (computeInterceptBased table).1 v = 0 := by
  have hmem : v ∈ table.map (fun r => r.1) :=
    (mem_scorecardVars table v).mp hv
  have hne := varPoints_ne_nil table v hmem
  unfold minOfVar computeInterceptBased
  rw [varPoints_pointmap (fun w p => p - minOfVar table w) table v]
  rw [listMin_map_sub _ _ hne]
  simp [minOfVar]

lemma sum_map_sub (f g : String → ℚ) (l : List String) :
    (l.map (fun w => f w - g w)).sum = (l.map f).sum - (l.map g).sum := by
  induction l with
  | nil => simp
  | cons a l ih =>
      simp only [List.map_cons, List.sum_cons, ih]
      ring

/-- Variables are untouched by a points-only rewrite of the table. -/
lemma vars_pointmap (f : String → ℚ → ℚ) (table : List (String × ℚ)) :
    (table.map (fun r => (r.1, f r.1 r.2))).map (fun r => r.1)
      = table.map (fun r => r.1) := by
  induction table with
  | nil => rfl
  | cons r rest ih => simp only [List.map_cons, ih]

/-- On a table whose per-variable minima are all zero,
`_compute_intercept_based` is the identity with intercept `0`. -/
lemma rebalanced_fixed (table : List (String × ℚ))
    (h : ∀ v ∈ scorecardVars table, minOfVar table v = 0) :
    computeInterceptBased table = (table, 0) := by
  unfold computeInterceptBased
  rw [Prod.mk.injEq]
  refine ⟨?_, ?_⟩
  · rw [List.map_congr_left (g := id) (fun r hr => ?_), List.map_id]
    have hr1 : r.1 ∈ scorecardVars table :=
      (mem_scorecardVars table r.1).mpr
        (List.mem_map.mpr ⟨r, hr, rfl⟩)
    rw [h r.1 hr1, sub_zero]
    exact Prod.mk.eta
  · rw [List.map_congr_left (g := fun _ => (0 : ℚ)) (fun v hv => h v hv)]
    simp


/-! ### Extrema of affine images of a point list -/

lemma min_affine_nonpos (c k x y : ℚ) (hk : k ≤ 0) :
    min (c + k * x) (c + k * y) = c + k * max x y := by
  rcases le_total x y with h | h
  · rw [max_eq_right h, min_eq_right (by nlinarith)]
  · rw [max_eq_left h, min_eq_left (by nlinarith)]

lemma max_affine_nonpos (c k x y : ℚ) (hk : k ≤ 0) :
    max (c + k * x) (c + k * y) = c + k * min x y := by
  rcases le_total x y with h | h
  · rw [min_eq_left h, max_eq_left (by nlinarith)]
  · rw [min_eq_right h, max_eq_right (by nlinarith)]

lemma min_affine_nonneg (c k x y : ℚ) (hk : 0 ≤ k) :
    min (c + k * x) (c + k * y) = c + k * min x y := by
  rcases le_total x y with h | h
  · rw [min_eq_left h, min_eq_left (by nlinarith)]
  · rw [min_eq_right h, min_eq_right (by nlinarith)]

lemma max_affine_nonneg (c k x y : ℚ) (hk : 0 ≤ k) :
    max (c + k * x) (c + k * y) = c + k * max x y := by
  rcases le_total x y with h | h
  · rw [max_eq_right h, max_eq_right (by nlinarith)]
  · rw [max_eq_left h, max_eq_left (by nlinarith)]

lemma foldl_min_affine_nonpos (c k : ℚ) (hk : k ≤ 0) (l : List ℚ) :
    ∀ x : ℚ, (l.map (fun p => c + k * p)).foldl min (c + k * x)
      = c + k * l.foldl max x := by
  induction l with
  | nil => intro x; simp
  | cons a l ih =>
      intro x
      simp only [List.map_cons, List.foldl_cons]
      rw [min_affine_nonpos c k x a hk, ih (max x a)]

lemma foldl_max_affine_nonpos (c k : ℚ) (hk : k ≤ 0) (l : List ℚ) :
    ∀ x : ℚ, (l.map (fun p => c + k * p)).foldl max (c + k * x)
      = c + k * l.foldl min x := by
  induction l with
  | nil => intro x; simp
  | cons a l ih =>
      intro x
      simp only [List.map_cons, List.foldl_cons]
      rw [max_affine_nonpos c k x a hk, ih (min x a)]

lemma foldl_min_affine_nonneg (c k : ℚ) (hk : 0 ≤ k) (l : List ℚ) :
    ∀ x : ℚ, (l.map (fun p => c + k * p)).foldl min (c + k * x)
      = c + k * l.foldl min x := by
  induction l with
  | nil => intro x; simp
  | cons a l ih =>
      intro x
      simp only [List.map_cons, List.foldl_cons]
      rw [min_affine_nonneg c k x a hk, ih (min x a)]

lemma foldl_max_affine_nonneg (c k : ℚ) (hk : 0 ≤ k) (l : List ℚ) :
    ∀ x : ℚ, (l.map (fun p => c + k * p)).foldl max (c + k * x)
      = c + k * l.foldl max x := by
  induction l with
  | nil => intro x; simp
  | cons a l ih =>
      intro x
      simp only [List.map_cons, List.foldl_cons]
      rw [max_affine_nonneg c k x a hk, ih (max x a)]

lemma listMin_affine_nonpos (c k : ℚ) (hk : k ≤ 0) (l : List ℚ)
    (hl : l ≠ []) :
    listMin (l.map (fun p => c + k * p)) = c + k * listMax l := by
  cases l with
  | nil => exact absurd rfl hl
  | cons a l =>
      simp only [List.map_cons, listMin, listMax]
      exact foldl_min_affine_nonpos c k hk l a

lemma listMax_affine_nonpos (c k : ℚ) (hk : k ≤ 0) (l : List ℚ)
    (hl : l ≠ []) :
    listMax (l.map (fun p => c + k * p)) = c + k * listMin l := by
  cases l with
  | nil => exact absurd rfl hl
  | cons a l =>
      simp only [List.map_cons, listMin, listMax]
      exact foldl_max_affine_nonpos c k hk l a

lemma listMin_affine_nonneg (c k : ℚ) (hk : 0 ≤ k) (l : List ℚ)
    (hl : l ≠ []) :
    listMin (l.map (fun p => c + k * p)) = c + k * listMin l := by
  cases l with
  | nil => exact absurd rfl hl
  | cons a l =>
      simp only [List.map_cons, listMin]
      exact foldl_min_affine_nonneg c k hk l a

lemma listMax_affine_nonneg (c k : ℚ) (hk : 0 ≤ k) (l : List ℚ)
    (hl : l ≠ []) :
    listMax (l.map (fun p => c + k * p)) = c + k * listMax l := by
  cases l with
  | nil => exact absurd rfl hl
  | cons a l =>
      simp only [List.map_cons, listMax]
      exact foldl_max_affine_nonneg c k hk l a

lemma foldl_min_le_init (l : List ℚ) : ∀ x : ℚ, l.foldl min x ≤ x := by
  induction l with
  | nil => intro x; simp
  | cons a l ih =>
      intro x
      simpa using le_trans (ih (min x a)) (min_le_left x a)

lemma init_le_foldl_max (l : List ℚ) : ∀ x : ℚ, x ≤ l.foldl max x := by
  induction l with
  | nil => intro x; simp
  | cons a l ih =>
      intro x
      simpa using le_trans (le_max_left x a) (ih (max x a))

lemma listMin_le_listMax (l : List ℚ) (hl : l ≠ []) :
    listMin l ≤ listMax l := by
  cases l with
  | nil => exact absurd rfl hl
  | cons a l =>
      simp only [listMin, listMax]
      exact le_trans (foldl_min_le_init l a) (init_le_foldl_max l a)

lemma sum_map_affine (c k : ℚ) (g : List ℚ → ℚ) (tables : List (List ℚ)) :
    (tables.map (fun t => c + k * g t)).sum
      = (tables.length : ℚ) * c + k * (tables.map g).sum := by
  induction tables with
  | nil => simp
  | cons t ts ih =>
      simp only [List.map_cons, List.sum_cons, List.length_cons, ih]
      push_cast
      ring

lemma mmMinP_le_mmMaxP (tables : List (List ℚ))
    (hne : ∀ t ∈ tables, t ≠ []) : mmMinP tables ≤ mmMaxP tables := by
  unfold mmMinP mmMaxP
  induction tables with
  | nil => simp
  | cons t ts ih =>
      simp only [List.map_cons, List.sum_cons]
      have h1 : listMin t ≤ listMax t :=
        listMin_le_listMax t (hne t (List.mem_cons_self t ts))
      have h2 := ih (fun u hu => hne u (List.mem_cons_of_mem t hu))
      exact add_le_add h1 h2

/-! ### The min/max bound invariant -/

lemma mmMinTotal_affine (a b : ℚ) (tables : List (List ℚ)) (intercept : ℚ)
    (r : Bool) :
    mmMinTotal a b tables intercept r
      = (tables.map (fun t => listMin (t.map (fun p =>
          mmBase a b tables intercept r / (tables.length : ℚ)
            + mmSlope a b tables intercept r * p)))).sum := rfl

lemma mmMaxTotal_affine (a b : ℚ) (tables : List (List ℚ)) (intercept : ℚ)
    (r : Bool) :
    mmMaxTotal a b tables intercept r
      = (tables.map (fun t => listMax (t.map (fun p =>
          mmBase a b tables intercept r / (tables.length : ℚ)
            + mmSlope a b tables intercept r * p)))).sum := rfl

lemma mm_tables_ne_nil (tables : List (List ℚ)) (intercept : ℚ)
    (hd : mmSmax tables intercept ≠ mmSmin tables intercept) :
    tables ≠ [] := by
  intro h
  subst h
  simp [mmSmax, mmSmin, mmMaxP, mmMinP] at hd

lemma mm_range_pos (tables : List (List ℚ)) (intercept : ℚ)
    (hne : ∀ t ∈ tables, t ≠ [])
    (hd : mmSmax tables intercept ≠ mmSmin tables intercept) :
    0 < mmMaxP tables - mmMinP tables := by
  have hle := mmMinP_le_mmMaxP tables hne
  have : mmMaxP tables ≠ mmMinP tables := by
    intro h
    exact hd (by simp [mmSmax, mmSmin, h])
  cases lt_or_eq_of_le hle with
  | inl h => linarith
  | inr h => exact absurd h.symm this

lemma mmSlope_mul_range (a b : ℚ) (tables : List (List ℚ)) (intercept : ℚ)
    (r : Bool) (hd : mmMaxP tables - mmMinP tables ≠ 0) :
    mmSlope a b tables intercept r * (mmMaxP tables - mmMinP tables)
      = senseOf r * (a - b) := by
  unfold mmSlope mmSmax mmSmin
  rw [add_sub_add_left_eq_sub]
  exact div_mul_cancel₀ _ hd

/-- After min/max scaling the theoretical minimum total equals the
configured `min` and the theoretical maximum equals the configured
`max`, for either value of `reverse_scorecard`. -/
lemma mm_totals (a b : ℚ) (tables : List (List ℚ)) (intercept : ℚ)
    (r : Bool) (hab : a ≤ b) (hne : ∀ t ∈ tables, t ≠ [])
    (hd : mmSmax tables intercept ≠ mmSmin tables intercept) :
    mmMinTotal a b tables intercept r = a
      ∧ mmMaxTotal a b tables intercept r = b := by
  have htne : tables ≠ [] := mm_tables_ne_nil tables intercept hd
  have hn : (tables.length : ℚ) ≠ 0 := by
    have : tables.length ≠ 0 := fun h => htne (List.length_eq_zero.mp h)
    exact_mod_cast this
  have hDpos : 0 < mmMaxP tables - mmMinP tables :=
    mm_range_pos tables intercept hne hd
  have hD : mmMaxP tables - mmMinP tables ≠ 0 := ne_of_gt hDpos
  have hKD := mmSlope_mul_range a b tables intercept r hD
  have hBase : (tables.length : ℚ)
      * (mmBase a b tables intercept r / (tables.length : ℚ))
      = mmBase a b tables intercept r := mul_div_cancel₀ _ hn
  have hmaxfold : (List.map listMax tables).sum = mmMaxP tables := rfl
  have hminfold : (List.map listMin tables).sum = mmMinP tables := rfl
  cases r with
  | false =>
      have hsense : senseOf false = 1 := rfl
      rw [hsense, one_mul] at hKD
      have hK : mmSlope a b tables intercept false ≤ 0 := by
        nlinarith
      constructor
      · rw [mmMinTotal_affine]
        rw [List.map_congr_left (fun t ht =>
          listMin_affine_nonpos _ _ hK t (hne t ht))]
        rw [sum_map_affine, hBase, hmaxfold]
        unfold mmBase mmShift mmSmin
        simp only [Bool.false_eq_true, if_false]
        linear_combination hKD
      · rw [mmMaxTotal_affine]
        rw [List.map_congr_left (fun t ht =>
          listMax_affine_nonpos _ _ hK t (hne t ht))]
        rw [sum_map_affine, hBase, hminfold]
        unfold mmBase mmShift mmSmin
        simp only [Bool.false_eq_true, if_false]
        ring
  | true =>
      have hsense : senseOf true = -1 := rfl
      rw [hsense] at hKD
      have hK : 0 ≤ mmSlope a b tables intercept true := by
        nlinarith
      constructor
      · rw [mmMinTotal_affine]
        rw [List.map_congr_left (fun t ht =>
          listMin_affine_nonneg _ _ hK t (hne t ht))]
        rw [sum_map_affine, hBase, hminfold]
        unfold mmBase mmShift mmSmin
        simp only [if_true]
        ring
      · rw [mmMaxTotal_affine]
        rw [List.map_congr_left (fun t ht =>
          listMax_affine_nonneg _ _ hK t (hne t ht))]
        rw [sum_map_affine, hBase, hmaxfold]
        unfold mmBase mmShift mmSmin
        simp only [if_true]
        linear_combination hKD

/-- C5: the "pdo_odds" branch of `_compute_scorecard_points` maps each raw
point `p` to exactly `-(sense * p + intercept / n) * factor + offset / n`
with `factor = pdo / ln 2` and `offset = scorecard_points - factor * ln odds`,
where `sense = -1` if `reverse_scorecard` else `1`. -/
theorem c5_pdo_odds_formula (pdo scorecard_points ln2 lnOdds intercept : ℚ)
    (n : ℕ) (reverse_scorecard : Bool) (p : ℚ) :
    pdoOddsPoint pdo scorecard_points ln2 lnOdds intercept n
        reverse_scorecard p
      = specPdoOddsFormula pdo scorecard_points ln2 lnOdds intercept n
        reverse_scorecard p := by
  unfold pdoOddsPoint specPdoOddsFormula senseOf
  ring

/-- C1 counterexample: one selected variable with bin points `{0, 1}`,
intercept `0`, configured `min = 0`, `max = 100`, `reverse_scorecard =
True`.  The scaled points are `{0, 100}`, so the theoretical minimum
total is `0` (the configured min, not the configured max `100`) and the
theoretical maximum total is `100` (not the configured min): reversal
flips the monotonicity, not which bound is the minimum. -/
theorem c1_reversed_counterexample :
    mmMinTotal 0 100 [[0, 1]] 0 true = 0
      ∧ mmMaxTotal 0 100 [[0, 1]] 0 true = 100
      ∧ mmMinTotal 0 100 [[0, 1]] 0 true ≠ 100
      ∧ mmMaxTotal 0 100 [[0, 1]] 0 true ≠ 0 := by
  norm_num [mmMinTotal, mmMaxTotal, minMaxPoint, mmBase, mmShift, mmSlope,
    mmSmax, mmSmin, mmMaxP, mmMinP, listMax, listMin, senseOf]

/-- C1 (amended): for min/max scaling with valid parameters
(`min ≤ max`), non-empty bin tables and a non-degenerate range
(`smax ≠ smin`), after `_compute_scorecard_points` the theoretical
minimum achievable total score (sum over the selected variables of each
variable's minimum scaled point, `intercept_` remaining `0`) equals the
configured `min` and the theoretical maximum equals the configured
`max`, for both values of `reverse_scorecard` (reversal flips the
score's monotonicity in the raw points, not the bounds), in exact-real
arithmetic. -/
theorem c1_minmax_bounds_amended (a b : ℚ) (tables : List (List ℚ))
    (intercept : ℚ) (reverse_scorecard : Bool) (hab : a ≤ b)
    (hne : ∀ t ∈ tables, t ≠ [])
    (hd : mmSmax tables intercept ≠ mmSmin tables intercept) :
    mmMinTotal a b tables intercept reverse_scorecard = a
      ∧ mmMaxTotal a b tables intercept reverse_scorecard = b :=
  mm_totals a b tables intercept reverse_scorecard hab hne hd

/-- C1 witness: the amended bound invariant evaluated on the concrete
scorecard with tables `{0,1}` and `{2,5}`, intercept `3`,
`min = 0`, `max = 100`, not reversed. -/
theorem c1_minmax_bounds_amended_witness :
    ((0 : ℚ) ≤ 100
        ∧ (∀ t ∈ [[(0 : ℚ), 1], [2, 5]], t ≠ [])
        ∧ mmSmax [[(0 : ℚ), 1], [2, 5]] 3 ≠ mmSmin [[(0 : ℚ), 1], [2, 5]] 3)
      ∧ (mmMinTotal 0 100 [[(0 : ℚ), 1], [2, 5]] 3 false = 0
        ∧ mmMaxTotal 0 100 [[(0 : ℚ), 1], [2, 5]] 3 false = 100) :=
  ⟨⟨by norm_num,
    by simp,
    by norm_num [mmSmax, mmSmin, mmMaxP, mmMinP, listMax, listMin]⟩,
   c1_minmax_bounds_amended 0 100 [[(0 : ℚ), 1], [2, 5]] 3 false
     (by norm_num)
     (by simp)
     (by norm_num [mmSmax, mmSmin, mmMaxP, mmMinP, listMax, listMin])⟩

/-- C10: with valid non-degenerate parameters, `_compute_scorecard_points`
is a strictly decreasing affine function of the raw point when
`reverse_scorecard = False` (for both the "pdo_odds" branch, given
`pdo > 0` and `ln 2 > 0`, and the "min_max" branch, given `min < max`
and `smin < smax`), and strictly increasing when reversed. -/
theorem c10_strict_monotonicity
    (pdo scorecard_points ln2 lnOdds intercept : ℚ) (n : ℕ)
    (a b : ℚ) (tables : List (List ℚ)) (intercept2 : ℚ)
    (hpdo : 0 < pdo) (hln2 : 0 < ln2) (hab : a < b)
    (hsm : mmSmin tables intercept2 < mmSmax tables intercept2)
    (p1 p2 : ℚ) (h12 : p1 < p2) :
    (pdoOddsPoint pdo scorecard_points ln2 lnOdds intercept n false p2
        < pdoOddsPoint pdo scorecard_points ln2 lnOdds intercept n false p1)
      ∧ (minMaxPoint a b tables intercept2 false p2
        < minMaxPoint a b tables intercept2 false p1)
      ∧ (pdoOddsPoint pdo scorecard_points ln2 lnOdds intercept n true p1
        < pdoOddsPoint pdo scorecard_points ln2 lnOdds intercept n true p2)
      ∧ (minMaxPoint a b tables intercept2 true p1
        < minMaxPoint a b tables intercept2 true p2) := by
  have hf : 0 < pdo / ln2 := div_pos hpdo hln2
  have hgap : 0 < (p2 - p1) * (pdo / ln2) := mul_pos (by linarith) hf
  have hKneg : mmSlope a b tables intercept2 false < 0 := by
    unfold mmSlope senseOf
    simp only [Bool.false_eq_true, if_false, one_mul]
    exact div_neg_of_neg_of_pos (by linarith) (by linarith)
  have hKpos : 0 < mmSlope a b tables intercept2 true := by
    unfold mmSlope senseOf
    simp only [if_true]
    have h1 : (-1 : ℚ) * (a - b) = b - a := by ring
    rw [h1]
    exact div_pos (by linarith) (by linarith)
  refine ⟨?_, ?_, ?_, ?_⟩
  · unfold pdoOddsPoint senseOf
    simp only [Bool.false_eq_true, if_false]
    nlinarith
  · unfold minMaxPoint
    exact add_lt_add_left (mul_lt_mul_of_neg_left h12 hKneg) _
  · unfold pdoOddsPoint senseOf
    simp only [if_true]
    nlinarith
  · unfold minMaxPoint
    exact add_lt_add_left (mul_lt_mul_of_pos_left h12 hKpos) _

/-- C10 witness: the monotonicity statement evaluated at
`pdo = 20`, `scorecard_points = 600`, `ln 2 ≈ 7/10`, `ln odds = 3`,
intercept `1`, `n = 2`, bounds `[0, 100]`, one bin table `{0, 1}` with
intercept `0`, raw points `p1 = 0 < p2 = 1`. -/
theorem c10_strict_monotonicity_witness :
    ((0 : ℚ) < 20 ∧ (0 : ℚ) < 7 / 10 ∧ (0 : ℚ) < 100
        ∧ mmSmin [[(0 : ℚ), 1]] 0 < mmSmax [[(0 : ℚ), 1]] 0
        ∧ (0 : ℚ) < 1)
      ∧ ((pdoOddsPoint 20 600 (7 / 10) 3 1 2 false 1
          < pdoOddsPoint 20 600 (7 / 10) 3 1 2 false 0)
        ∧ (minMaxPoint 0 100 [[(0 : ℚ), 1]] 0 false 1
          < minMaxPoint 0 100 [[(0 : ℚ), 1]] 0 false 0)
        ∧ (pdoOddsPoint 20 600 (7 / 10) 3 1 2 true 0
          < pdoOddsPoint 20 600 (7 / 10) 3 1 2 true 1)
        ∧ (minMaxPoint 0 100 [[(0 : ℚ), 1]] 0 true 0
          < minMaxPoint 0 100 [[(0 : ℚ), 1]] 0 true 1)) :=
  ⟨⟨by norm_num, by norm_num,
    by norm_num,
    by norm_num [mmSmin, mmSmax, mmMinP, mmMaxP, listMin, listMax],
    by norm_num⟩,
   c10_strict_monotonicity 20 600 (7 / 10) 3 1 2 0 100 [[(0 : ℚ), 1]] 0
     (by norm_num) (by norm_num) (by norm_num)
     (by norm_num [mmSmin, mmSmax, mmMinP, mmMaxP, listMin, listMax])
     0 1 (by norm_num)⟩

/-- C6: `_compute_intercept_based` returns points in which every distinct
variable's minimum is exactly `0`, an intercept equal to the sum of the
subtracted per-variable minima, and for any fixed observation (one point
chosen from each variable's rows) the sum of the original points equals
the sum of the new points plus the returned intercept; the chosen new
point of each variable is indeed a point of that variable in the
returned table. -/
theorem c6_intercept_rebalance (table : List (String × ℚ)) (v : String)
    (hv : v ∈ scorecardVars table) (choice : String → ℚ)
    (hc : ∀ w ∈ scorecardVars table, choice w ∈ varPoints table w) :
    minOfVar (computeInterceptBased table).1 v = 0
      ∧ (computeInterceptBased table).2
          = ((scorecardVars table).map (fun w => minOfVar table w)).sum
      ∧ ((scorecardVars table).map choice).sum
          = ((scorecardVars table).map
              (fun w => choice w - minOfVar table w)).sum
            + (computeInterceptBased table).2
      ∧ ∀ w ∈ scorecardVars table,
          choice w - minOfVar table w
            ∈ varPoints (computeInterceptBased table).1 w := by
  refine ⟨minOfVar_rebalanced table v hv, rfl, ?_, ?_⟩
  · rw [sum_map_sub]
    have h2 : (computeInterceptBased table).2
        = ((scorecardVars table).map (fun w => minOfVar table w)).sum := rfl
    rw [h2]
    ring
  · intro w hw
    have hmap : varPoints (computeInterceptBased table).1 w
        = (varPoints table w).map (fun p => p - minOfVar table w) :=
      varPoints_pointmap (fun u p => p - minOfVar table u) table w
    rw [hmap]
    exact List.mem_map_of_mem _ (hc w hw)

/-- C6 witness: the rebalancing invariants on the concrete table
`x ↦ {3, 1}`, `y ↦ {2}` with the observation choosing `3` from `x` and
`2` from `y`. -/
theorem c6_intercept_rebalance_witness :
    ("x" ∈ scorecardVars [("x", (3 : ℚ)), ("x", 1), ("y", 2)]
        ∧ (∀ w ∈ scorecardVars [("x", (3 : ℚ)), ("x", 1), ("y", 2)],
            (if w = "x" then (3 : ℚ) else 2)
              ∈ varPoints [("x", (3 : ℚ)), ("x", 1), ("y", 2)] w))
      ∧ (minOfVar
            (computeInterceptBased [("x", (3 : ℚ)), ("x", 1), ("y", 2)]).1
            "x" = 0
        ∧ (computeInterceptBased [("x", (3 : ℚ)), ("x", 1), ("y", 2)]).2
            = ((scorecardVars [("x", (3 : ℚ)), ("x", 1), ("y", 2)]).map
                (fun w =>
                  minOfVar [("x", (3 : ℚ)), ("x", 1), ("y", 2)] w)).sum
        ∧ ((scorecardVars [("x", (3 : ℚ)), ("x", 1), ("y", 2)]).map
              (fun w => if w = "x" then (3 : ℚ) else 2)).sum
            = ((scorecardVars [("x", (3 : ℚ)), ("x", 1), ("y", 2)]).map
                (fun w => (if w = "x" then (3 : ℚ) else 2)
                  - minOfVar [("x", (3 : ℚ)), ("x", 1), ("y", 2)] w)).sum
              + (computeInterceptBased
                  [("x", (3 : ℚ)), ("x", 1), ("y", 2)]).2
        ∧ ∀ w ∈ scorecardVars [("x", (3 : ℚ)), ("x", 1), ("y", 2)],
            (if w = "x" then (3 : ℚ) else 2)
                - minOfVar [("x", (3 : ℚ)), ("x", 1), ("y", 2)] w
              ∈ varPoints
                (computeInterceptBased
                  [("x", (3 : ℚ)), ("x", 1), ("y", 2)]).1 w) := by
  have hv : "x" ∈ scorecardVars [("x", (3 : ℚ)), ("x", 1), ("y", 2)] := by
    simp [scorecardVars, uniqueList]
  have hc : ∀ w ∈ scorecardVars [("x", (3 : ℚ)), ("x", 1), ("y", 2)],
      (if w = "x" then (3 : ℚ) else 2)
        ∈ varPoints [("x", (3 : ℚ)), ("x", 1), ("y", 2)] w := by
    intro w hw
    have hw2 : w = "x" ∨ w = "y" := by
      simpa [scorecardVars, uniqueList] using hw
    rcases hw2 with rfl | rfl <;> simp [varPoints]
  exact ⟨⟨hv, hc⟩,
    c6_intercept_rebalance [("x", (3 : ℚ)), ("x", 1), ("y", 2)] "x" hv
      (fun w => if w = "x" then (3 : ℚ) else 2) hc⟩

/-- C7: `_compute_intercept_based` is idempotent: on a table whose
per-variable minima are already all `0` it returns the points unchanged
with intercept `0`, and applying it twice yields the same points as
applying it once. -/
theorem c7_intercept_rebalance_idempotent (table : List (String × ℚ))
    (h : ∀ v ∈ scorecardVars table, minOfVar table v = 0) :
    computeInterceptBased table = (table, 0)
      ∧ ∀ t : List (String × ℚ),
          computeInterceptBased (computeInterceptBased t).1
            = ((computeInterceptBased t).1, 0) := by
  refine ⟨rebalanced_fixed table h, fun t => rebalanced_fixed _ ?_⟩
  intro v hv
  have hvars : scorecardVars (computeInterceptBased t).1
      = scorecardVars t := by
    unfold scorecardVars computeInterceptBased
    exact congrArg uniqueList
      (vars_pointmap (fun w p => p - minOfVar t w) t)
  rw [hvars] at hv
  exact minOfVar_rebalanced t v hv

/-- C7 witness: idempotence on the already-rebalanced table
`x ↦ {0}`, `y ↦ {0}`. -/
theorem c7_intercept_rebalance_idempotent_witness :
    (∀ v ∈ scorecardVars [("x", (0 : ℚ)), ("y", 0)],
        minOfVar [("x", (0 : ℚ)), ("y", 0)] v = 0)
      ∧ computeInterceptBased [("x", (0 : ℚ)), ("y", 0)]
          = ([("x", (0 : ℚ)), ("y", 0)], 0) := by
  have h : ∀ v ∈ scorecardVars [("x", (0 : ℚ)), ("y", 0)],
      minOfVar [("x", (0 : ℚ)), ("y", 0)] v = 0 := by
    intro v hv
    have hv2 : v = "x" ∨ v = "y" := by
      simpa [scorecardVars, uniqueList] using hv
    rcases hv2 with rfl | rfl <;> simp [minOfVar, varPoints, listMin]
  exact ⟨h,
    (c7_intercept_rebalance_idempotent [("x", (0 : ℚ)), ("y", 0)] h).1⟩

/-- C2: on the spec's degenerate fixture (two variables with single-bin
tables of raw points `1` and `3`, intercept `1/2`, min/max scaling), the
denominator `smax - smin` of the slope computed by
`_compute_scorecard_points` is exactly `0`: the source divides by it with
no guard, so under IEEE arithmetic the slope is infinite/NaN and no
numeric-degeneracy error is raised. -/
theorem c2_degenerate_denominator_zero :
    mmSmax [[1], [3]] (1 / 2) - mmSmin [[1], [3]] (1 / 2) = 0 := by
  norm_num [mmSmax, mmSmin, mmMaxP, mmMinP, listMax, listMin]

/-- C3: with `rounding=True` and `scaling_method=None`, neither branch of
the rounding stage assigns `round_points`, so the source raises
`NameError` at `df_scorecard["Points"] = round_points` (modelled by
`none`), both at the stage and for the whole `_fit` pipeline — points
are not rounded to the nearest integer as the claim (and the class
docstring) state.  Under "pdo_odds" the stage does round every point to
the nearest integer, ties to even (`np.rint(3/2) = 2`). -/
theorem c3_rounding_none_crash :
    roundingStage none "OPTIMAL" [] [("v", (3 : ℚ) / 2)] = none
      ∧ scorecardFit ScalingConfig.off false false true "OPTIMAL" []
          [("v", [(3 : ℚ) / 2])] 0 = none
      ∧ roundingStage (some SMethod.pdo_odds) "X" [] [("v", (3 : ℚ) / 2)]
          = some [("v", 2)] := by
  have hfloor : ⌊(3 : ℚ) / 2⌋ = 1 :=
    Int.floor_eq_iff.mpr (by norm_num)
  refine ⟨rfl, rfl, ?_⟩
  simp only [roundingStage, rint, hfloor, List.map_cons, List.map_nil]
  norm_num

/-- C4: when the MIP rounder reports any status other than `"OPTIMAL"`
or `"FEASIBLE"`, the rounding stage under min/max scaling does not
propagate an error: it substitutes nearest-integer rounding, so the
final points are the `np.rint` image of the pre-rounding points. -/
theorem c4_minmax_rounding_fallback (status : String)
    (solverPoints : List ℚ) (rows : List (String × ℚ))
    (h1 : status ≠ "OPTIMAL") (h2 : status ≠ "FEASIBLE") :
    roundingStage (some SMethod.min_max) status solverPoints rows
      = some (rows.map (fun r => (r.1, rint r.2))) := by
  unfold roundingStage
  rw [if_neg]
  rintro (h | h)
  · exact h1 h
  · exact h2 h

/-- C4 witness: the fallback at the concrete status `"INFEASIBLE"`. -/
theorem c4_minmax_rounding_fallback_witness :
    ("INFEASIBLE" ≠ "OPTIMAL" ∧ "INFEASIBLE" ≠ "FEASIBLE")
      ∧ roundingStage (some SMethod.min_max) "INFEASIBLE" [99]
          [("v", (3 : ℚ) / 2)]
        = some ([("v", (3 : ℚ) / 2)].map (fun r => (r.1, rint r.2))) :=
  ⟨⟨by decide, by decide⟩,
   c4_minmax_rounding_fallback "INFEASIBLE" [99] [("v", (3 : ℚ) / 2)]
     (by decide) (by decide)⟩

/-- C9 counterexample: with `intercept_based=True` and
`scaling_method=None` (rounding off), the `_fit` pipeline does **not**
run the intercept-rebalancing stage: on the single-row table
`v ↦ {5}` with model intercept `7` it returns the raw points unchanged
and `intercept_ = 0`, with the variable's minimum point `5 ≠ 0` —
whereas the claim predicts minimum `0` and the removed mass in the
intercept. -/
theorem c9_rebalance_skipped_counterexample :
    scorecardFit ScalingConfig.off true false false "X" []
        [("v", [(5 : ℚ)])] 7
      = some ([("v", (5 : ℚ))], 0)
      ∧ minOfVar [("v", (5 : ℚ))] "v" ≠ 0 := by
  refine ⟨rfl, ?_⟩
  norm_num [minOfVar, varPoints, listMin]

/-- C9 (amended): in `_fit` the intercept-rebalancing stage is nested
inside the scaling guard: when `scaling_method` is `None` (and rounding
is off), the pipeline returns the raw flattened points with
`intercept_ = 0` regardless of `intercept_based` — the rebalancer never
runs without a scaling method. -/
theorem c9_no_scaling_pipeline_amended
    (intercept_based reverse_scorecard : Bool) (status : String)
    (solverPoints : List ℚ) (tables : List (String × List ℚ))
    (intercept : ℚ) :
    scorecardFit ScalingConfig.off intercept_based reverse_scorecard
        false status solverPoints tables intercept
      = some (tables.flatMap (fun t => t.2.map (fun p => (t.1, p))), 0) :=
  rfl

/-- C8 counterexample: for "min_max" with params
`{min: <non-number>, max: <non-number>}` the source raises
("min must be numeric"), while claim C8's condition list (key set,
positive pdo-parameters, `min > max`, non-binary target for pdo) does
not fire — the claim's "exactly when" misses the numeric-type check on
`min`/`max`. -/
theorem c8_nonnumeric_minmax_counterexample :
    checkScorecardScaling (some SMethod.min_max)
        [("min", PValue.other), ("max", PValue.other)] "continuous" = true
      ∧ claimScalingError (some SMethod.min_max)
          [("min", PValue.other), ("max", PValue.other)] "continuous"
        = false := by
  constructor
  · rfl
  · rfl

/-- C8 (amended): `_check_scorecard_scaling` raises exactly when: the
key set differs from the required one for the method; some of
`pdo`/`odds`/`scorecard_points` is not a strictly positive number;
`min` or `max` is not a number, or `min > max`, for "min_max"; or
"pdo_odds" is used with a non-binary target.  Otherwise it returns
without error. -/
theorem c8_scaling_validation_amended (method : Option SMethod)
    (params : List (String × PValue)) (target_type : String) :
    checkScorecardScaling method params target_type
      = claimScalingErrorAmended method params target_type := by
  cases method with
  | none => rfl
  | some m =>
      cases m with
      | pdo_odds =>
          unfold checkScorecardScaling claimScalingErrorAmended
          cases h1 : target_type != "binary" <;>
            cases h2 : keySetEq (pkeys params)
              ["pdo", "odds", "scorecard_points"] <;>
            cases h3 : ["pdo", "odds", "scorecard_points"].all
              (fun k => isPosNum (plookup params k)) <;>
            simp [h1, h2, h3]
      | min_max =>
          unfold checkScorecardScaling claimScalingErrorAmended
          cases h1 : keySetEq (pkeys params) ["min", "max"] <;>
            cases h2 : ["min", "max"].all
              (fun k => isNum (plookup params k)) <;>
            cases h3 : decide (numVal (plookup params "max")
              < numVal (plookup params "min")) <;>
            simp [h1, h2, h3]

end Scorecard
